import Mathlib

/-!
Verification of the redaction core of `env_debug_mcp/server.py`.

The program has three pure functions, embedded here over `String`
(values and keys) and association lists `List (String × String)`
(Python dicts in iteration order):

* `_redact_value(value)` = `re.sub(r"[a-zA-Z0-9]", "*", value)` — embedded
  as `redact_value`, a character map replacing exactly the ASCII
  alphanumeric characters with `*`.
* `_is_sensitive_key(key)` = `_SENSITIVE_PATTERN.search(key) is not None`
  where `_SENSITIVE_PATTERN` is the case-insensitive regex
  `(^|_)(KEY|TOKEN|CRED|SECRET|AUTH|PASSWORD|PASSPHRASE)|(^|_)PASS(_|$)`.
  `re.IGNORECASE` on this all-ASCII pattern is embedded by case-folding
  the key with `Char.toLower` (ASCII fold) and matching the folded
  tokens; the search scans every position of the string, a position
  matching when it is the start of the string or holds `_` and the
  remainder starts (case-insensitively) with one of the seven tokens, or
  with `PASS` followed by `_` or the end of the string.
  (Python's Unicode case folding additionally folds a few non-ASCII
  code points such as U+212A onto ASCII letters; no claim depends on those
  inputs and every concrete input below is ASCII.)
* `_get_debug_env(env)` — the dict comprehension
  `{key: _redact_value(value) if _is_sensitive_key(key) else value
    for key, value in env.items()}`, embedded as a map over the
  association list, which also preserves the dict iteration order.

Allocation behaviour of the comprehension (freshness of the result dict,
non-mutation of the input) is modelled by a tiny heap of dict objects,
`PyHeap`, where the comprehension reads the input address and appends a
new object at a fresh address.
-/

/-- The character class `[a-zA-Z0-9]` of the substitution regex in
`_redact_value`: ASCII letters and digits only. -/
def isAsciiAlnum (c : Char) : Bool :=
  ('a' ≤ c && c ≤ 'z') || ('A' ≤ c && c ≤ 'Z') || ('0' ≤ c && c ≤ '9')

/-- Action of `re.sub(r"[a-zA-Z0-9]", "*", ·)` on one character. -/
def redactChar (c : Char) : Char :=
  if isAsciiAlnum c then '*' else c

/-- Embedding of `_redact_value`: replace ASCII alphanumeric characters
with asterisks, leave every other character in place. -/
def redact_value (v : String) : String :=
  ⟨v.data.map redactChar⟩

/-- The seven tokens of the first alternative of `_SENSITIVE_PATTERN`,
anchored on the left only (`(^|_)TOKEN`). -/
def sensTokens : List String :=
  ["KEY", "TOKEN", "CRED", "SECRET", "AUTH", "PASSWORD", "PASSPHRASE"]

/-- The token of the second alternative, anchored on both sides
(`(^|_)PASS(_|$)`). -/
def passTok : String := "PASS"

/-- Case-folded character list of a token (the `re.IGNORECASE` fold for
an ASCII pattern). -/
def lowc (s : String) : List Char :=
  s.data.map Char.toLower

/-- Literal token match at the head of the (already case-folded)
character list. -/
def matchTok : List Char → List Char → Bool
  | [], _ => true
  | _ :: _, [] => false
  | p :: ps, c :: cs => p == c && matchTok ps cs

/-- Does one of the seven left-anchored tokens match at the head? -/
def tokenAtHead (s : List Char) : Bool :=
  sensTokens.any fun t => matchTok (lowc t) s

/-- Does `PASS(_|$)` match at the head: the four characters of `PASS`
followed by `_` or by the end of the string? -/
def passAtHead (s : List Char) : Bool :=
  matchTok (lowc passTok) s &&
    (match s.drop 4 with
     | [] => true
     | c :: _ => c == '_')

/-- A boundary position matches when either alternative of the pattern
matches there (the `(^|_)` part already consumed). -/
def boundaryMatch (s : List Char) : Bool :=
  tokenAtHead s || passAtHead s

/-- Scan of `re.search` over the non-initial positions: a match needs a
literal `_` followed by a boundary match. -/
def underscoreSearch : List Char → Bool
  | [] => false
  | c :: rest => (c == '_' && boundaryMatch rest) || underscoreSearch rest

/-- Full search: a match at the start of the string (the `^` branch) or
after some underscore. -/
def sensitiveCore (s : List Char) : Bool :=
  boundaryMatch s || underscoreSearch s

/-- Embedding of `_is_sensitive_key`: case-fold the key and search the
pattern in it. -/
def is_sensitive_key (k : String) : Bool :=
  sensitiveCore (k.data.map Char.toLower)

/-- Embedding of `_get_debug_env` on an explicit mapping: the dict
comprehension keeps each key and redacts the value exactly when the key
is sensitive, in input iteration order. -/
def get_debug_env (env : List (String × String)) : List (String × String) :=
  env.map fun kv => (kv.1, if is_sensitive_key kv.1 then redact_value kv.2 else kv.2)

/-- Heap of Python dict objects: the address of a dict is its index. -/
structure PyHeap where
  dicts : List (List (String × String))

/-- Read the dict object at an address (absent addresses read as empty). -/
def readDict (h : PyHeap) (a : Nat) : List (String × String) :=
  h.dicts.getD a []

/-- Overwrite the dict object at an address, as a caller mutating a dict
in place would. -/
def writeDict (h : PyHeap) (a : Nat) (d : List (String × String)) : PyHeap :=
  ⟨h.dicts.set a d⟩

/-- Allocation behaviour of `_get_debug_env`: the dict comprehension
reads the input dict and allocates the result as a new object at a fresh
address, returning the new heap and the result address. -/
def get_debug_env_alloc (h : PyHeap) (a : Nat) : PyHeap × Nat :=
  (⟨h.dicts ++ [get_debug_env (readDict h a)]⟩, h.dicts.length)

/-- Spec-side predicate for claim C3, written from the claim's words: one
of the seven tokens occurs in the name, case-insensitively, immediately
after the start of the string or immediately after an underscore, with no
constraint on what follows. -/
def tokenOccursAfterBoundary (name : String) : Prop :=
  ∃ t ∈ sensTokens, ∃ pre mid post : List Char,
    name.data = pre ++ mid ++ post ∧
    mid.map Char.toLower = lowc t ∧
    (pre = [] ∨ ∃ pre0, pre = pre0 ++ ['_'])

/-- Spec-side predicate for claim C4, written from the claim's words:
`PASS` occurs in the name, case-insensitively, bounded on the left by the
start of the string or an underscore and on the right by the end of the
string or an underscore. -/
def passOccursBounded (name : String) : Prop :=
  ∃ pre mid post : List Char,
    name.data = pre ++ mid ++ post ∧
    mid.map Char.toLower = lowc passTok ∧
    (pre = [] ∨ ∃ pre0, pre = pre0 ++ ['_']) ∧
    (post = [] ∨ ∃ post0, post = '_' :: post0)

/-- Spec-side predicate for claim C5, written from the spec's words
"alphanumeric code point": a Unicode letter or digit. Beyond ASCII this
model lists the Latin-1 letter block (U+00C0..U+00FF without the two
operators × U+00D7 and ÷ U+00F7), which is enough to compare the spec's
invariant with the ASCII-only behaviour of the source. -/
def isAlnumCodePoint (c : Char) : Bool :=
  isAsciiAlnum c ||
    (0xC0 ≤ c.toNat && c.toNat ≤ 0xFF && !(c.toNat == 0xD7) && !(c.toNat == 0xF7))

theorem redactChar_space : redactChar ' ' = ' ' := by decide

theorem redactChar_idem (c : Char) : redactChar (redactChar c) = redactChar c := by
  by_cases h : isAsciiAlnum c
  · have h1 : redactChar c = '*' := by simp [redactChar, h]
    rw [h1]
    decide
  · have h1 : redactChar c = c := by simp [redactChar, h]
    rw [h1, h1]

theorem redact_list_idem (l : List Char) :
    (l.map redactChar).map redactChar = l.map redactChar := by
  induction l with
  | nil => rfl
  | cons c l ih => simp [ih, redactChar_idem c]

theorem redact_idem (v : String) : redact_value (redact_value v) = redact_value v := by
  cases v with
  | mk data =>
    show (⟨(data.map redactChar).map redactChar⟩ : String) = ⟨data.map redactChar⟩
    rw [redact_list_idem]

theorem redact_length (v : String) : (redact_value v).length = v.length := by
  show (v.data.map redactChar).length = v.data.length
  simp

theorem redact_getD (l : List Char) (i : Nat) :
    (l.map redactChar).getD i ' ' = redactChar (l.getD i ' ') := by
  induction l generalizing i with
  | nil => simp [redactChar_space]
  | cons a l ih =>
    cases i with
    | zero => simp
    | succ n => simpa using ih n

theorem redact_value_getD (v : String) (j : Nat) :
    (redact_value v).data.getD j ' ' =
      (if isAsciiAlnum (v.data.getD j ' ') then '*' else v.data.getD j ' ') := by
  have h := redact_getD v.data j
  simpa [redact_value, redactChar] using h

theorem get_debug_env_keys (env : List (String × String)) :
    (get_debug_env env).map Prod.fst = env.map Prod.fst := by
  induction env with
  | nil => rfl
  | cons kv rest ih => simp [get_debug_env]

theorem matchTok_self_append (p rest : List Char) : matchTok p (p ++ rest) = true := by
  induction p with
  | nil => rfl
  | cons a p ih => simp [matchTok, ih]

theorem tokenAtHead_append (t : String) (ht : t ∈ sensTokens) (rest : List Char) :
    tokenAtHead (lowc t ++ rest) = true := by
  simp only [tokenAtHead, List.any_eq_true]
  exact ⟨t, ht, matchTok_self_append _ _⟩

theorem passAtHead_append (post : List Char)
    (hpost : post = [] ∨ ∃ post0, post = '_' :: post0) :
    passAtHead (lowc passTok ++ post) = true := by
  have hm : matchTok (lowc passTok) (lowc passTok ++ post) = true :=
    matchTok_self_append _ _
  have hlow : lowc passTok = ['p', 'a', 's', 's'] := by decide
  have hdrop : (lowc passTok ++ post).drop 4 = post := by rw [hlow]; rfl
  unfold passAtHead
  rw [hm, Bool.true_and, hdrop]
  rcases hpost with h | ⟨post0, h⟩ <;> subst h <;> rfl

theorem underscoreSearch_append (xs ys : List Char) (hy : boundaryMatch ys = true) :
    underscoreSearch (xs ++ '_' :: ys) = true := by
  induction xs with
  | nil => simp [underscoreSearch, hy]
  | cons c xs ih => simp [underscoreSearch, ih]

theorem sensitiveCore_at_boundary (pre ys : List Char) (hy : boundaryMatch ys = true)
    (hpre : pre = [] ∨ ∃ pre0, pre = pre0 ++ ['_']) :
    sensitiveCore (pre ++ ys) = true := by
  rcases hpre with h | ⟨pre0, h⟩
  · subst h
    simp [sensitiveCore, hy]
  · subst h
    have h2 : underscoreSearch (pre0 ++ '_' :: ys) = true :=
      underscoreSearch_append pre0 ys hy
    have h3 : (pre0 ++ ['_']) ++ ys = pre0 ++ '_' :: ys := by simp
    simp [sensitiveCore, h3, h2]

theorem lower_boundary (pre : List Char)
    (hpre : pre = [] ∨ ∃ pre0, pre = pre0 ++ ['_']) :
    pre.map Char.toLower = [] ∨
      ∃ q, pre.map Char.toLower = q ++ ['_'] := by
  have hu : Char.toLower '_' = '_' := by decide
  rcases hpre with h | ⟨pre0, h⟩
  · left; simp [h]
  · right; exact ⟨pre0.map Char.toLower, by simp [h, hu]⟩

/-- C1: `_get_debug_env` preserves the key set exactly (no key added,
dropped, or renamed), maps each key to its redacted value exactly when
the key is sensitive and to the unchanged value otherwise, and maps the
empty mapping to the empty mapping. -/
theorem claim1_build_debug_view_spec :
    (∀ env : List (String × String),
      (get_debug_env env).map Prod.fst = env.map Prod.fst) ∧
    (∀ (env : List (String × String)) (k : String),
      (get_debug_env env).lookup k =
        (env.lookup k).map fun v => if is_sensitive_key k then redact_value v else v) ∧
    get_debug_env [] = [] := by
  refine ⟨get_debug_env_keys, fun env k => ?_, rfl⟩
  induction env with
  | nil => rfl
  | cons kv rest ih =>
    obtain ⟨k0, v0⟩ := kv
    by_cases h : k = k0
    · subst h
      simp [get_debug_env, List.lookup]
    · have hb : (k == k0) = false := by simp [h]
      simp only [get_debug_env, List.map_cons, List.lookup, hb]
      simpa [get_debug_env] using ih

/-- C2: `_redact_value` is length-preserving, replaces exactly the ASCII
alphanumeric characters with the mask character at their original
positions and passes every other character through unchanged, maps the
empty string to the empty string, and maps "key=value!" to
"***=*****!". -/
theorem claim2_redact_value_spec :
    (∀ v : String, (redact_value v).length = v.length) ∧
    (∀ (v : String) (i : Nat),
      (redact_value v).data.getD i ' ' =
        (if isAsciiAlnum (v.data.getD i ' ') then '*' else v.data.getD i ' ')) ∧
    redact_value "" = "" ∧
    redact_value "key=value!" = "***=*****!" := by
  refine ⟨redact_length, redact_value_getD, by decide, by decide⟩

/-- C8: the redaction operation is idempotent: applying `_get_debug_env`
to its own output changes nothing. -/
theorem claim8_idempotent (env : List (String × String)) :
    get_debug_env (get_debug_env env) = get_debug_env env := by
  induction env with
  | nil => rfl
  | cons kv rest ih =>
    obtain ⟨k, v⟩ := kv
    by_cases h : is_sensitive_key k
    · simp [get_debug_env, h, redact_idem] at ih ⊢
      simpa [get_debug_env] using ih
    · simp [get_debug_env, h] at ih ⊢
      simpa [get_debug_env] using ih

/-- C9: the empty string is not a sensitive key, so an entry keyed by the
empty string has its value passed through `_get_debug_env` unchanged. -/
theorem claim9_empty_key :
    is_sensitive_key "" = false ∧
    ∀ v : String, get_debug_env [("", v)] = [("", v)] := by
  have h : is_sensitive_key "" = false := by decide
  exact ⟨h, fun v => by simp [get_debug_env, h]⟩

/-- C10: `_get_debug_env` yields its entries in exactly the iteration
order of the input mapping: the sequence of output keys equals the
sequence of input keys. -/
theorem claim10_order_preserved (env : List (String × String)) :
    (get_debug_env env).map Prod.fst = env.map Prod.fst :=
  get_debug_env_keys env

/-- C5 counterexample: the key "KEY" is sensitive, yet for the input
value "é" the output value is "é" itself — an alphanumeric code point
(the Unicode letter é) that is not replaced, because the substitution
class of the source is ASCII-only. This refutes the claim that every
alphanumeric code point of the input value is replaced, quantified over
values containing non-ASCII alphanumeric code points. -/
theorem claim5_counterexample :
    is_sensitive_key "KEY" = true ∧
    get_debug_env [("KEY", "é")] = [("KEY", "é")] ∧
    isAlnumCodePoint 'é' = true ∧
    ('é' : Char) ≠ '*' := by
  exact ⟨by decide, by decide, by decide, by decide⟩

/-- C5 amended: for every entry of the input mapping there is a
corresponding output entry under the same key, whose value either equals
the input value (key not sensitive) or has identical length with every
ASCII alphanumeric code point replaced by the mask character and every
other code point — including non-ASCII alphanumeric code points — passed
through unchanged at its position (key sensitive). -/
theorem claim5_amended (env : List (String × String)) (kv : String × String)
    (hm : kv ∈ env) :
    ∃ w : String, (kv.1, w) ∈ get_debug_env env ∧
      ((is_sensitive_key kv.1 = false ∧ w = kv.2) ∨
       (is_sensitive_key kv.1 = true ∧ w.length = kv.2.length ∧
        ∀ j : Nat, w.data.getD j ' ' =
          (if isAsciiAlnum (kv.2.data.getD j ' ') then '*'
           else kv.2.data.getD j ' '))) := by
  refine ⟨if is_sensitive_key kv.1 then redact_value kv.2 else kv.2, ?_, ?_⟩
  · have h := List.mem_map_of_mem
      (fun p : String × String =>
        (p.1, if is_sensitive_key p.1 then redact_value p.2 else p.2)) hm
    simpa [get_debug_env] using h
  · by_cases h : is_sensitive_key kv.1
    · exact Or.inr ⟨h, by simp [h, redact_length],
        fun j => by simpa [h] using redact_value_getD kv.2 j⟩
    · exact Or.inl ⟨by simp [h], by simp [h]⟩

/-- C5 amended, witness at a concrete input. -/
theorem claim5_amended_witness :
    ∃ w : String, (("KEY" : String), w) ∈ get_debug_env [("KEY", "x")] ∧
      ((is_sensitive_key "KEY" = false ∧ w = "x") ∨
       (is_sensitive_key "KEY" = true ∧ w.length = ("x" : String).length ∧
        ∀ j : Nat, w.data.getD j ' ' =
          (if isAsciiAlnum (("x" : String).data.getD j ' ') then '*'
           else ("x" : String).data.getD j ' '))) :=
  claim5_amended [("KEY", "x")] ("KEY", "x") (by simp)

/-- C3: whenever one of the seven tokens KEY, TOKEN, CRED, SECRET, AUTH,
PASSWORD, PASSPHRASE occurs case-insensitively in the name immediately
after the start of the string or immediately after an underscore, the
key is sensitive, with no requirement on what follows (so "CREDENTIALS"
and "KEYRING" are sensitive); an occurrence without such a left boundary
does not by itself trigger a match ("SUBTOKEN_ID" is not sensitive). -/
theorem claim3_token_boundary :
    (∀ name : String, tokenOccursAfterBoundary name → is_sensitive_key name = true) ∧
    is_sensitive_key "CREDENTIALS" = true ∧
    is_sensitive_key "KEYRING" = true ∧
    is_sensitive_key "SUBTOKEN_ID" = false := by
  refine ⟨fun name h => ?_, by decide, by decide, by decide⟩
  obtain ⟨t, ht, pre, mid, post, hdata, hmid, hpre⟩ := h
  have hb : boundaryMatch (lowc t ++ post.map Char.toLower) = true := by
    simp [boundaryMatch, tokenAtHead_append t ht]
  have hmap : (pre ++ mid ++ post).map Char.toLower =
      pre.map Char.toLower ++ (lowc t ++ post.map Char.toLower) := by
    simp [hmid]
  show sensitiveCore (name.data.map Char.toLower) = true
  rw [hdata, hmap]
  exact sensitiveCore_at_boundary _ _ hb (lower_boundary pre hpre)

/-- C3, witness at a concrete input. -/
theorem claim3_token_boundary_witness :
    is_sensitive_key "AWS_SECRET" = true :=
  claim3_token_boundary.1 "AWS_SECRET"
    ⟨"SECRET", by decide, ['A', 'W', 'S', '_'], "SECRET".data, [],
      by decide, by decide, Or.inr ⟨['A', 'W', 'S'], by decide⟩⟩

/-- C4: an occurrence of PASS bounded on both sides (start-or-underscore
on the left, end-or-underscore on the right) makes the key sensitive;
concretely "DB_PASS" and "PASS" are sensitive while "COMPASS",
"PASSPORT_NUMBER" and "SUBTOKEN_ID" are not. -/
theorem claim4_pass_bounded :
    (∀ name : String, passOccursBounded name → is_sensitive_key name = true) ∧
    is_sensitive_key "DB_PASS" = true ∧
    is_sensitive_key "PASS" = true ∧
    is_sensitive_key "COMPASS" = false ∧
    is_sensitive_key "PASSPORT_NUMBER" = false ∧
    is_sensitive_key "SUBTOKEN_ID" = false := by
  refine ⟨fun name h => ?_, by decide, by decide, by decide, by decide, by decide⟩
  obtain ⟨pre, mid, post, hdata, hmid, hpre, hpost⟩ := h
  have hu : Char.toLower '_' = '_' := by decide
  have hpost2 : post.map Char.toLower = [] ∨
      ∃ q, post.map Char.toLower = '_' :: q := by
    rcases hpost with h0 | ⟨post0, h0⟩
    · left; simp [h0]
    · right; exact ⟨post0.map Char.toLower, by simp [h0, hu]⟩
  have hb : boundaryMatch (lowc passTok ++ post.map Char.toLower) = true := by
    simp [boundaryMatch, passAtHead_append _ hpost2]
  have hmap : (pre ++ mid ++ post).map Char.toLower =
      pre.map Char.toLower ++ (lowc passTok ++ post.map Char.toLower) := by
    simp [hmid]
  show sensitiveCore (name.data.map Char.toLower) = true
  rw [hdata, hmap]
  exact sensitiveCore_at_boundary _ _ hb (lower_boundary pre hpre)

/-- C4, witness at a concrete input. -/
theorem claim4_pass_bounded_witness :
    is_sensitive_key "DB_PASS" = true :=
  claim4_pass_bounded.1 "DB_PASS"
    ⟨['D', 'B', '_'], "PASS".data, [],
      by decide, by decide, Or.inr ⟨['D', 'B'], by decide⟩, Or.inl rfl⟩

/-- C6: sensitivity of a key is invariant under changes of ASCII case
(two keys with the same ASCII case-fold classify identically); in
particular "API_KEY", "api_key" and "Api_Key" classify identically. -/
theorem claim6_case_insensitive :
    (∀ k1 k2 : String,
      k1.data.map Char.toLower = k2.data.map Char.toLower →
      is_sensitive_key k1 = is_sensitive_key k2) ∧
    is_sensitive_key "API_KEY" = is_sensitive_key "api_key" ∧
    is_sensitive_key "api_key" = is_sensitive_key "Api_Key" := by
  refine ⟨fun k1 k2 h => ?_, by decide, by decide⟩
  simp only [is_sensitive_key, h]

/-- C6, witness at a concrete input. -/
theorem claim6_case_insensitive_witness :
    is_sensitive_key "API_KEY" = is_sensitive_key "api_key" :=
  claim6_case_insensitive.1 "API_KEY" "api_key" (by decide)

/-- C7: in the heap model of the dict comprehension, `_get_debug_env`
leaves the input dict (and every other allocated dict) unchanged,
returns a fresh address distinct from the input address, and writing
through the returned address cannot change the source environment; the
fresh object holds the redacted view of the input. -/
theorem claim7_no_mutation (h : PyHeap) (a : Nat) (ha : a < h.dicts.length) :
    readDict (get_debug_env_alloc h a).1 a = readDict h a ∧
    (get_debug_env_alloc h a).2 ≠ a ∧
    (∀ b, b < h.dicts.length →
      readDict (get_debug_env_alloc h a).1 b = readDict h b) ∧
    (∀ d, readDict
        (writeDict (get_debug_env_alloc h a).1 (get_debug_env_alloc h a).2 d) a
      = readDict h a) ∧
    readDict (get_debug_env_alloc h a).1 (get_debug_env_alloc h a).2
      = get_debug_env (readDict h a) := by
  have frame : ∀ b, b < h.dicts.length →
      readDict (get_debug_env_alloc h a).1 b = readDict h b := by
    intro b hb
    show (h.dicts ++ [get_debug_env (readDict h a)]).getD b [] = h.dicts.getD b []
    rw [List.getD_eq_getElem?_getD, List.getD_eq_getElem?_getD,
      List.getElem?_append_left hb]
  refine ⟨frame a ha, ?_, frame, fun d => ?_, ?_⟩
  · show h.dicts.length ≠ a
    omega
  · show ((h.dicts ++ [get_debug_env (readDict h a)]).set h.dicts.length d).getD a []
      = h.dicts.getD a []
    rw [List.getD_eq_getElem?_getD, List.getD_eq_getElem?_getD,
      List.getElem?_set_ne (by omega), List.getElem?_append_left ha]
  · show (h.dicts ++ [get_debug_env (readDict h a)]).getD h.dicts.length []
      = get_debug_env (readDict h a)
    rw [List.getD_eq_getElem?_getD, List.getElem?_concat_length]
    rfl

/-- C7, witness at a concrete heap holding one dict. -/
theorem claim7_no_mutation_witness :
    readDict (get_debug_env_alloc ⟨[[("API_KEY", "x")]]⟩ 0).1 0
      = readDict ⟨[[("API_KEY", "x")]]⟩ 0 :=
  (claim7_no_mutation ⟨[[("API_KEY", "x")]]⟩ 0 (by decide)).1
